import Mathlib

/-!
Verification of the odds-matching and EV-computation core of the EV_Prop_Bot
repository (src/api.py), shallowly embedded in Lean 4.

Python floats are modelled as rationals (ℚ), Python ints as ℤ, and Python
strings as Lean Strings (all inputs of interest are ASCII).  A Python
function that can raise an exception is modelled with Option / Except.
-/

namespace EVBot

/-! ## String helpers

Embeddings of the Python string primitives used by api.py:
str.lower (ASCII), str.strip, str.replace (left-to-right, non-overlapping
replacement of every occurrence), str.upper. -/

/-- Python str.strip(): drop whitespace on both ends. -/
def trimChars (l : List Char) : List Char :=
  ((l.dropWhile Char.isWhitespace).reverse.dropWhile Char.isWhitespace).reverse

/-- Python str.lower() restricted to ASCII, as a String map. -/
def lowerStr (s : String) : String := ⟨s.data.map Char.toLower⟩

/-- Python str.upper() restricted to ASCII, as a String map. -/
def upperStr (s : String) : String := ⟨s.data.map Char.toUpper⟩

/-- Worker for replaceAll; the fuel argument starts at the length of
the list, and every step consumes at least one character, so the
zero-fuel fallback is never reached. -/
def replaceAllGo (pat : List Char) : Nat → List Char → List Char
  | _, [] => []
  | 0, l => l
  | fuel + 1, c :: rest =>
    if pat.isPrefixOf (c :: rest) && !pat.isEmpty then
      replaceAllGo pat fuel ((c :: rest).drop pat.length)
    else c :: replaceAllGo pat fuel rest

/-- Python str.replace(pat, ""): remove every occurrence of pat,
scanning left to right, not rescanning the junction after a removal. -/
def replaceAll (pat l : List Char) : List Char := replaceAllGo pat l.length l

/-- The generational-suffix list of api.py normalize (in source order:
the order matters, " iii" is removed before " ii"). -/
def SUFFIXES : List (List Char) :=
  [" jr.".data, " sr.".data, " iii".data, " ii".data, " iv".data]

/-- Embedding of normalize from api.py match_player (lines 830-834):
lower-case, strip surrounding whitespace, then remove every occurrence of
each generational suffix, in list order. -/
def normalizeData (l : List Char) : List Char :=
  SUFFIXES.foldl (fun acc suf => replaceAll suf acc) (trimChars (l.map Char.toLower))

/-- The api.py name normalizer, on Lean Strings. -/
def normalize (s : String) : String := ⟨normalizeData s.data⟩

/-! ## Fuzzy similarity scores

api.py calls fuzz.ratio / fuzz.partial_ratio / fuzz.token_sort_ratio from
the third-party fuzzywuzzy library, which is not part of this repository.
Modelled from the spec: three string-similarity heuristics, each on a 0-100
scale (whole-string similarity, best-substring similarity and
token-order-independent similarity), clipped to 100, all built from the
longest-common-subsequence similarity 200*lcs/(|a|+|b|), which is the
documented "whole-string" similarity ratio. -/

/-- One cell-row step of the longest-common-subsequence dynamic program. -/
def lcsGo (c : Char) : List Char → List Nat → Nat → Nat → List Nat
  | [], _, _, _ => []
  | bj :: bs, prow, diag, left =>
    let up := prow.headD 0
    let cur := if bj == c then diag + 1 else max left up
    cur :: lcsGo c bs prow.tail up cur

/-- Next row of the longest-common-subsequence dynamic program. -/
def lcsRow (c : Char) (b : List Char) (prev : List Nat) : List Nat :=
  0 :: lcsGo c b prev.tail (prev.headD 0) 0

/-- Longest common subsequence length, computed by dynamic programming
(structural recursion, so that concrete instances evaluate by decide). -/
def lcs (a b : List Char) : Nat :=
  (a.foldl (fun row c => lcsRow c b row) (List.replicate (b.length + 1) 0)).getLastD 0

/-- Modelled from the spec: fuzz.ratio, whole-string similarity on a
0-100 scale; 100 on identical strings, 0 on strings without common
characters. -/
def ratioM (a b : List Char) : Nat :=
  if a.length + b.length = 0 then 100
  else min 100 ((200 * lcs a b) / (a.length + b.length))

/-- All contiguous substrings of l of length len, in order of start index. -/
def windows (l : List Char) (len : Nat) : List (List Char) :=
  (List.range (l.length - len + 1)).map (fun i => (l.drop i).take len)

/-- Modelled from the spec: fuzz.partial_ratio, best-substring similarity:
the best ratioM between the shorter string and any window of the longer
string of the shorter string's length. -/
def partRatioM (a b : List Char) : Nat :=
  if a.length ≤ b.length then ((windows b a.length).map (fun w => ratioM a w)).foldr max 0
  else ((windows a b.length).map (fun w => ratioM b w)).foldr max 0

/-- Worker for splitWs: split on whitespace runs, discarding empties
(the accumulator holds the current token reversed). -/
def splitWsGo : List Char → List Char → List (List Char)
  | [], acc => if acc.isEmpty then [] else [acc.reverse]
  | c :: rest, acc =>
    if c.isWhitespace then
      if acc.isEmpty then splitWsGo rest [] else acc.reverse :: splitWsGo rest []
    else splitWsGo rest (c :: acc)

/-- Python str.split() with no argument: tokens separated by whitespace runs. -/
def splitWs (l : List Char) : List (List Char) := splitWsGo l []

/-- Lexicographic comparison of char lists by code point (Python string order). -/
def lexLeChars : List Char → List Char → Bool
  | [], _ => true
  | _ :: _, [] => false
  | a :: as, b :: bs => if a.val < b.val then true else if b.val < a.val then false else lexLeChars as bs

/-- Insert a token into a lexicographically sorted token list. -/
def insertTok (t : List Char) : List (List Char) → List (List Char)
  | [] => [t]
  | u :: us => if lexLeChars t u then t :: u :: us else u :: insertTok t us

/-- Stable insertion sort of tokens (Python sorted()). -/
def sortToks : List (List Char) → List (List Char)
  | [] => []
  | t :: ts => insertTok t (sortToks ts)

/-- Python " ".join(tokens). -/
def joinSpace : List (List Char) → List Char
  | [] => []
  | [t] => t
  | t :: ts => t ++ ' ' :: joinSpace ts

/-- Modelled from the spec: fuzz.token_sort_ratio, token-order-independent
similarity: ratioM of the whitespace-split, sorted, space-rejoined forms. -/
def tokenSortRatioM (a b : List Char) : Nat :=
  ratioM (joinSpace (sortToks (splitWs a))) (joinSpace (sortToks (splitWs b)))

/-- The score api.py match_player gives one candidate (lines 840-846):
the maximum of the three similarity scores between the normalized target
and the normalized candidate. -/
def candScore (nameNorm : String) (cand : String) : Nat :=
  max (ratioM nameNorm.data (normalize cand).data)
    (max (partRatioM nameNorm.data (normalize cand).data)
      (tokenSortRatioM nameNorm.data (normalize cand).data))

/-- The candidate loop of api.py match_player (lines 840-849), carrying the
best match and best score seen so far; a candidate replaces the running best
exactly when its score strictly exceeds the best score AND reaches the
threshold. -/
def matchLoop (nn : String) (t : ℤ) : List String → Option String → Nat → Option String
  | [], best, _ => best
  | c :: rest, best, bestScore =>
    if bestScore < candScore nn c ∧ t ≤ (candScore nn c : ℤ) then
      matchLoop nn t rest (some c) (candScore nn c)
    else matchLoop nn t rest best bestScore

/-- Embedding of api.py match_player (lines 828-851): fuzzy match a player
name to a list of candidates; the threshold defaults to 80 at call sites. -/
def match_player (name : String) (candidates : List String) (threshold : ℤ) : Option String :=
  matchLoop (normalize name) threshold candidates none 0

/-- Maximum candidate score among candidates whose score reaches the
threshold (0 when none does). -/
def maxQual (nn : String) (t : ℤ) : List String → Nat
  | [] => 0
  | c :: rest =>
    if t ≤ (candScore nn c : ℤ) then max (candScore nn c) (maxQual nn t rest)
    else maxQual nn t rest

/-- Maximum candidate score over all candidates (0 on the empty list). -/
def maxScore (nn : String) : List String → Nat
  | [] => 0
  | c :: rest => max (candScore nn c) (maxScore nn rest)

/-! ## Vig removal (api.py calculate_no_vig, lines 810-825)

Python floats are modelled as rationals.  The Python code divides by the
sum of the implied probabilities with no guard; when both odds are 0 that
sum is 0 and Python raises ZeroDivisionError, modelled here as none. -/

/-- Implied probability of one American odds value (inner helper
implied_prob of calculate_no_vig). -/
def implied_prob (odds : ℤ) : ℚ :=
  if odds > 0 then 100 / ((odds : ℚ) + 100)
  else (odds.natAbs : ℚ) / ((odds.natAbs : ℚ) + 100)

/-- Embedding of api.py calculate_no_vig: normalize the two implied
probabilities by their sum and scale to percent.  none models the
ZeroDivisionError Python raises when the sum of implied probabilities
is zero (both odds zero). -/
def calculate_no_vig (over_odds under_odds : ℤ) : Option (ℚ × ℚ) :=
  let over_implied := implied_prob over_odds
  let under_implied := implied_prob under_odds
  let total := over_implied + under_implied
  if total = 0 then none
  else some ((over_implied / total) * 100, (under_implied / total) * 100)

/-! ## Configuration tables (api.py lines 239-294) -/

/-- Python dict.get(k) on an association list kept in insertion order. -/
def alist_get {α β : Type} [DecidableEq α] (k : α) : List (α × β) → Option β
  | [] => none
  | (k₁, v) :: rest => if k = k₁ then some v else alist_get k rest

/-- The PrizePicks break-even row of BREAKEVEN. -/
def ppBreakevens : List (String × ℚ) :=
  [("5_flex", 5434/100), ("6_flex", 5434/100), ("4_power", 5623/100),
   ("2_power", 5774/100), ("default", 5434/100)]

/-- The Underdog break-even row of BREAKEVEN. -/
def udBreakevens : List (String × ℚ) :=
  [("5_leg", 5238/100), ("4_leg", 5357/100), ("3_leg", 5556/100),
   ("2_leg", 60), ("default", 5238/100)]

/-- Embedding of the BREAKEVEN table (api.py lines 273-294):
platform to slip-type to minimum win probability, in source order. -/
def BREAKEVEN : List (String × List (String × ℚ)) :=
  [("prizepicks", ppBreakevens),
   ("underdog", udBreakevens),
   ("sleeper", [("default", 54)]),
   ("betr", [("default", 54)])]

/-- Embedding of PROP_MAPPINGS (api.py lines 239-270): platform stat label
to Odds API market, in source order. -/
def PROP_MAPPINGS : List (String × String) :=
  [("Points", "player_points"),
   ("Rebounds", "player_rebounds"),
   ("Assists", "player_assists"),
   ("3-Point Made", "player_threes"),
   ("Pts+Rebs+Asts", "player_points_rebounds_assists"),
   ("Steals", "player_steals"),
   ("Blocks", "player_blocks"),
   ("Turnovers", "player_turnovers"),
   ("Pass Yards", "player_pass_yds"),
   ("Rush Yards", "player_rush_yds"),
   ("Receiving Yards", "player_reception_yds"),
   ("Receptions", "player_receptions"),
   ("Pass TDs", "player_pass_tds"),
   ("Strikeouts", "pitcher_strikeouts"),
   ("Hits Allowed", "pitcher_hits_allowed"),
   ("Shots On Goal", "player_shots_on_goal"),
   ("Goals", "player_goals"),
   ("points", "player_points"),
   ("rebounds", "player_rebounds"),
   ("assists", "player_assists"),
   ("pts_rebs_asts", "player_points_rebounds_assists"),
   ("three_pointers_made", "player_threes"),
   ("passing_yards", "player_pass_yds"),
   ("rushing_yards", "player_rush_yds"),
   ("receiving_yards", "player_reception_yds")]

/-- The loop body of api.py get_best_slip_types (lines 859-861): collect
slip types other than "default" whose break-even the win probability meets. -/
def slipLoop (win_prob : ℚ) : List (String × ℚ) → List String
  | [] => []
  | (slip_type, be) :: rest =>
    if slip_type ≠ "default" ∧ be ≤ win_prob then slip_type :: slipLoop win_prob rest
    else slipLoop win_prob rest

/-- Embedding of api.py get_best_slip_types (lines 854-863); an unknown
platform falls back to the PrizePicks row (BREAKEVEN.get(platform,
BREAKEVEN["prizepicks"])). -/
def get_best_slip_types (win_prob : ℚ) (platform : String) : List String :=
  slipLoop win_prob ((alist_get platform BREAKEVEN).getD ppBreakevens)

/-! ## Data model (api.py lines 300-334) -/

/-- Embedding of the Prop record of api.py (the name Prop is reserved in
Lean, hence the apostrophe). -/
structure Prop' where
  id : String
  player_name : String
  team : String
  opponent : Option String
  sport : String
  stat_type : String
  platform : String
  line : ℚ
  game_time : Option String
deriving DecidableEq

/-- One record of the all_odds list built by fetch_sharp_odds
(api.py lines 789-797). -/
structure SharpOddsEntry where
  player : String
  line : ℚ
  over_odds : ℤ
  under_odds : ℤ
  bookmaker : String
  market : String
  is_sharp : Bool
deriving DecidableEq

/-- The sharp_odds sub-record of an emitted EV play (api.py lines 1220-1228). -/
structure SharpOddsInfo where
  bookmaker : String
  line : ℚ
  over_odds : ℤ
  under_odds : ℤ
  over_probability : ℚ
  under_probability : ℚ
  is_sharp : Bool
deriving DecidableEq

/-- An emitted EV play (api.py lines 1218-1233). -/
structure EVPlay where
  prop : Prop'
  sharp_odds : SharpOddsInfo
  recommended_play : String
  win_probability : ℚ
  ev_percentage : ℚ
  best_for : List String
deriving DecidableEq

/-! ## EV evaluation (api.py get_ev_plays, per-prop body, lines 1184-1234) -/

/-- Python round(x) on an exact rational: round half to even. -/
def pyRound (q : ℚ) : ℤ :=
  if q - ⌊q⌋ < 1/2 then ⌊q⌋
  else if 1/2 < q - ⌊q⌋ then ⌊q⌋ + 1
  else if ⌊q⌋ % 2 = 0 then ⌊q⌋ else ⌊q⌋ + 1

/-- Python round(x, 2): round to two decimal places, half to even. -/
def round2 (q : ℚ) : ℚ := (pyRound (q * 100) : ℚ) / 100

/-- Python relevant_odds.sort(key=lambda x: 0 if x.get("is_sharp") else 1):
a stable sort by a 0/1 key is exactly the stable partition putting the
is_sharp entries first, input order otherwise preserved. -/
def sharpSort (l : List SharpOddsEntry) : List SharpOddsEntry :=
  l.filter (fun o => o.is_sharp) ++ l.filter (fun o => !o.is_sharp)

/-- The market filter plus sharp-priority sort of api.py (lines 1190-1192). -/
def relevantOdds (all_odds : List SharpOddsEntry) (market : String) : List SharpOddsEntry :=
  sharpSort (all_odds.filter (fun o => o.market == market))

/-- The body run on the first line-matching odds entry
(api.py lines 1205-1233): remove the vig, pick the higher-probability
side, compute the EV against the platform default break-even, and emit
the play when it clears both floors.  Except.error models the
ZeroDivisionError Python would raise on 0/0 odds. -/
def processEntry (p : Prop') (min_win min_ev : ℚ) (o : SharpOddsEntry) :
    Except String (Option EVPlay) :=
  match calculate_no_vig o.over_odds o.under_odds with
  | none => .error "ZeroDivisionError"
  | some (over_prob, under_prob) =>
    let recommended := if over_prob > under_prob then "OVER" else "UNDER"
    let win_prob := if over_prob > under_prob then over_prob else under_prob
    let default_be := (alist_get "default" ((alist_get p.platform BREAKEVEN).getD [])).getD (5434/100)
    let ev_pct := win_prob - default_be
    if min_win ≤ win_prob ∧ min_ev ≤ ev_pct then
      .ok (some
        { prop := p,
          sharp_odds :=
            { bookmaker := o.bookmaker, line := o.line, over_odds := o.over_odds,
              under_odds := o.under_odds, over_probability := round2 over_prob,
              under_probability := round2 under_prob, is_sharp := o.is_sharp },
          recommended_play := recommended,
          win_probability := round2 win_prob,
          ev_percentage := round2 ev_pct,
          best_for := get_best_slip_types win_prob p.platform })
    else .ok none

/-- The odds loop of api.py (lines 1199-1234): skip entries whose player
differs from the matched name or whose line is more than 0.5 away from the
prop's line; process the first remaining entry and stop (the loop body
ends in an unconditional break). -/
def evalOddsLoop (p : Prop') (min_win min_ev : ℚ) (m : String) :
    List SharpOddsEntry → Except String (Option EVPlay)
  | [] => .ok none
  | o :: rest =>
    if o.player ≠ m then evalOddsLoop p min_win min_ev m rest
    else if 1/2 < |o.line - p.line| then evalOddsLoop p min_win min_ev m rest
    else processEntry p min_win min_ev o

/-- The per-prop body of api.py get_ev_plays (lines 1184-1234): map the
stat to a market, filter and sharp-sort the odds, fuzzy-match the player
name (threshold 80), then run the odds loop. -/
def evaluateProp (p : Prop') (all_odds : List SharpOddsEntry) (min_win min_ev : ℚ) :
    Except String (Option EVPlay) :=
  match alist_get p.stat_type PROP_MAPPINGS with
  | none => .ok none
  | some market =>
    match match_player p.player_name ((relevantOdds all_odds market).map (fun o => o.player)) 80 with
    | none => .ok none
    | some m => evalOddsLoop p min_win min_ev m (relevantOdds all_odds market)

/-! ## Middle detection (api.py get_middles, lines 1294-1347) -/

/-- Python int() on a float: truncation toward zero. -/
def pytrunc (q : ℚ) : ℤ := if q < 0 then -⌊-q⌋ else ⌊q⌋

/-- Python range(a, b) as a list of rationals. -/
def intRangeQ (a b : ℤ) : List ℚ :=
  (List.range (b - a).toNat).map (fun (i : Nat) => ((a + (i : ℤ) : ℤ) : ℚ))

/-- The middle zone of api.py (lines 1325-1327):
list(range(int(low)+1, int(high)+1)), or [low + 0.5] when that is empty. -/
def middleZone (low high : ℚ) : List ℚ :=
  let zone := intRangeQ (pytrunc low + 1) (pytrunc high + 1)
  if zone = [] then [low + 1/2] else zone

/-- One platform side of a middle opportunity (the platform_a/platform_b
sub-dicts of api.py lines 1333-1342). -/
structure PlatformSide where
  name : String
  line : ℚ
  recommended : String
deriving DecidableEq

/-- An emitted middle opportunity (api.py lines 1329-1345); platform_a is
always the higher-lined platform (recommended UNDER), platform_b the
lower-lined one (recommended OVER). -/
structure MiddleOpportunity where
  player_name : String
  stat_type : String
  sport : String
  platform_a : PlatformSide
  platform_b : PlatformSide
  spread : ℚ
  middle_zone : List ℚ
deriving DecidableEq

/-- The grouping key of api.py get_middles (lines 1295-1296):
(player_name.lower().strip(), stat_type.lower(), sport.lower()). -/
def propKey (p : Prop') : String × String × String :=
  (⟨trimChars (p.player_name.data.map Char.toLower)⟩, lowerStr p.stat_type, lowerStr p.sport)

/-- Python dict assignment d[k] = v on an insertion-ordered association
list: overwrite in place when the key exists, append otherwise. -/
def dictInsert (k : String × String × String) (v : Prop') :
    List ((String × String × String) × Prop') → List ((String × String × String) × Prop')
  | [] => [(k, v)]
  | (k₁, v₁) :: rest => if k₁ = k then (k₁, v) :: rest else (k₁, v₁) :: dictInsert k v rest

/-- The dict comprehension of api.py lines 1298-1299: key each prop,
later duplicates overwriting earlier ones, iteration order preserved. -/
def buildDict (props : List Prop') : List ((String × String × String) × Prop') :=
  props.foldl (fun d p => dictInsert (propKey p) p d) []

/-- Build one middle opportunity (api.py lines 1312-1345): the
higher-lined platform is recommended UNDER, the lower-lined OVER, and a
line tie falls to the else branch (Underdog counted as the higher side). -/
def mkMiddle (sport : String) (pp_prop ud_prop : Prop') : MiddleOpportunity :=
  if pp_prop.line > ud_prop.line then
    { player_name := pp_prop.player_name, stat_type := pp_prop.stat_type,
      sport := upperStr sport,
      platform_a := { name := "prizepicks", line := pp_prop.line, recommended := "UNDER" },
      platform_b := { name := "underdog", line := ud_prop.line, recommended := "OVER" },
      spread := |pp_prop.line - ud_prop.line|,
      middle_zone := middleZone ud_prop.line pp_prop.line }
  else
    { player_name := pp_prop.player_name, stat_type := pp_prop.stat_type,
      sport := upperStr sport,
      platform_a := { name := "underdog", line := ud_prop.line, recommended := "UNDER" },
      platform_b := { name := "prizepicks", line := pp_prop.line, recommended := "OVER" },
      spread := |pp_prop.line - ud_prop.line|,
      middle_zone := middleZone pp_prop.line ud_prop.line }

/-- The key loop of api.py get_middles (lines 1304-1345): for each entry of
the PrizePicks dict, in insertion order, emit a middle when the key is also
in the Underdog dict and the line spread reaches min_spread. -/
def middlesLoop (sport : String) (udDict : List ((String × String × String) × Prop'))
    (min_spread : ℚ) : List ((String × String × String) × Prop') → List MiddleOpportunity
  | [] => []
  | (k, pp_prop) :: rest =>
    match alist_get k udDict with
    | none => middlesLoop sport udDict min_spread rest
    | some ud_prop =>
      if min_spread ≤ |pp_prop.line - ud_prop.line| then
        mkMiddle sport pp_prop ud_prop :: middlesLoop sport udDict min_spread rest
      else middlesLoop sport udDict min_spread rest

/-- Insert into a list sorted by spread descending, after entries of equal
spread (stability of Python's sort). -/
def insertDesc (m : MiddleOpportunity) : List MiddleOpportunity → List MiddleOpportunity
  | [] => [m]
  | y :: ys => if y.spread ≤ m.spread then m :: y :: ys else y :: insertDesc m ys

/-- Stable insertion sort by spread descending
(middles.sort(key=lambda x: x["spread"], reverse=True)). -/
def sortBySpread : List MiddleOpportunity → List MiddleOpportunity
  | [] => []
  | m :: rest => insertDesc m (sortBySpread rest)

/-- Embedding of the core of api.py get_middles (lines 1294-1347). -/
def get_middles (pp_props ud_props : List Prop') (min_spread : ℚ) (sport : String) :
    List MiddleOpportunity :=
  sortBySpread (middlesLoop sport (buildDict ud_props) min_spread (buildDict pp_props))

/-! ## Concrete inputs used by witnesses and counterexamples -/

/-- A PrizePicks prop used to instantiate the EV-evaluation theorems. -/
def c1prop : Prop' :=
  { id := "c1", player_name := "LeBron James", team := "LAL", opponent := none,
    sport := "NBA", stat_type := "Points", platform := "prizepicks",
    line := 25, game_time := none }

/-- A one-entry odds list matching c1prop. -/
def c1odds : List SharpOddsEntry :=
  [{ player := "lebron james", line := 25, over_odds := -110, under_odds := -110,
     bookmaker := "draftkings", market := "player_points", is_sharp := true }]

/-- A prop on a platform that has no BREAKEVEN entry. -/
def c9prop : Prop' :=
  { id := "c9", player_name := "Nikola Jokic", team := "DEN", opponent := none,
    sport := "NBA", stat_type := "Rebounds", platform := "parlayplay",
    line := 12, game_time := none }

/-- A one-entry odds list matching c9prop. -/
def c9odds : List SharpOddsEntry :=
  [{ player := "nikola jokic", line := 12, over_odds := -110, under_odds := -110,
     bookmaker := "fanduel", market := "player_rebounds", is_sharp := false }]

/-- The PrizePicks prop of the spec's middle example (line 7.5). -/
def c3pp : Prop' :=
  { id := "pp1", player_name := "LeBron James", team := "LAL", opponent := none,
    sport := "NBA", stat_type := "Points", platform := "prizepicks",
    line := 15/2, game_time := none }

/-- The Underdog prop of the spec's middle example (line 5.5). -/
def c3ud : Prop' :=
  { id := "ud1", player_name := "LeBron James", team := "LAL", opponent := none,
    sport := "nba", stat_type := "points", platform := "underdog",
    line := 11/2, game_time := none }

/-- A PrizePicks prop with a negative line (trunc and floor differ). -/
def c3negpp : Prop' :=
  { id := "pp2", player_name := "Team Total", team := "X", opponent := none,
    sport := "NBA", stat_type := "Points", platform := "prizepicks",
    line := -11/2, game_time := none }

/-- An Underdog prop with a negative line (trunc and floor differ). -/
def c3negud : Prop' :=
  { id := "ud2", player_name := "Team Total", team := "X", opponent := none,
    sport := "NBA", stat_type := "Points", platform := "underdog",
    line := -15/2, game_time := none }

/-- A PrizePicks prop with an integer line 7.0 (middle-zone endpoint equals
the line itself). -/
def c8pp : Prop' :=
  { id := "pp3", player_name := "Anthony Davis", team := "LAL", opponent := none,
    sport := "NBA", stat_type := "Rebounds", platform := "prizepicks",
    line := 7, game_time := none }

/-- An Underdog prop at line 5.5 for the same key as c8pp. -/
def c8ud : Prop' :=
  { id := "ud3", player_name := "Anthony Davis", team := "LAL", opponent := none,
    sport := "NBA", stat_type := "Rebounds", platform := "underdog",
    line := 11/2, game_time := none }

/-- A PrizePicks prop at line 7.5 for the claim-8 witness. -/
def c8wpp : Prop' :=
  { id := "pp4", player_name := "Luka Doncic", team := "DAL", opponent := none,
    sport := "NBA", stat_type := "Points", platform := "prizepicks",
    line := 15/2, game_time := none }

/-- An Underdog prop at line 5.5 for the claim-8 witness. -/
def c8wud : Prop' :=
  { id := "ud4", player_name := "Luka Doncic", team := "DAL", opponent := none,
    sport := "NBA", stat_type := "Points", platform := "underdog",
    line := 11/2, game_time := none }

/-! ## Lemmas

The rational operations of Batteries are sealed (irreducible); they are
unsealed here so that concrete rational computations can be settled by
the decide tactic through plain kernel reduction. -/

unseal Rat.add Rat.sub Rat.mul Rat.inv

lemma maxQual_threshold (nn : String) (t : ℤ) :
    ∀ l : List String, 0 < maxQual nn t l → t ≤ (maxQual nn t l : ℤ) := by
  intro l
  induction l with
  | nil => simp [maxQual]
  | cons c rest ih =>
    simp only [maxQual]
    split
    · intro _
      refine le_trans (by assumption) ?_
      exact_mod_cast Nat.le_max_left _ _
    · exact ih

lemma maxQual_le_maxScore (nn : String) (t : ℤ) :
    ∀ l : List String, maxQual nn t l ≤ maxScore nn l := by
  intro l
  induction l with
  | nil => simp [maxQual, maxScore]
  | cons c rest ih =>
    simp only [maxQual, maxScore]
    split
    · exact max_le_max (le_refl _) ih
    · exact le_trans ih (le_max_right _ _)

lemma maxQual_of_lt (nn : String) (t : ℤ) :
    ∀ l : List String, (maxScore nn l : ℤ) < t → maxQual nn t l = 0 := by
  intro l
  induction l with
  | nil => simp [maxQual]
  | cons c rest ih =>
    intro h
    simp only [maxScore] at h
    have hc : (candScore nn c : ℤ) < t := by
      refine lt_of_le_of_lt ?_ h
      exact_mod_cast Nat.le_max_left _ _
    have hr : (maxScore nn rest : ℤ) < t := by
      refine lt_of_le_of_lt ?_ h
      exact_mod_cast Nat.le_max_right _ _
    simp only [maxQual, if_neg (not_le.mpr hc)]
    exact ih hr

lemma maxQual_of_le (nn : String) (t : ℤ) :
    ∀ l : List String, t ≤ (maxScore nn l : ℤ) → maxQual nn t l = maxScore nn l := by
  intro l
  induction l with
  | nil => simp [maxQual, maxScore]
  | cons c rest ih =>
    intro h
    simp only [maxScore] at h ⊢
    rw [Nat.cast_max] at h
    by_cases hc : t ≤ (candScore nn c : ℤ)
    · simp only [maxQual, if_pos hc]
      by_cases hr : t ≤ (maxScore nn rest : ℤ)
      · rw [ih hr]
      · have hms : maxScore nn rest ≤ candScore nn c := by
          by_contra hlt
          push_neg at hlt
          have h1 : (candScore nn c : ℤ) ≤ (maxScore nn rest : ℤ) := by
            exact_mod_cast le_of_lt hlt
          rw [max_eq_right h1] at h
          exact hr h
        rw [maxQual_of_lt nn t rest (not_le.mp hr)]
        rw [max_eq_left hms, max_eq_left (Nat.zero_le _)]
    · have hcs : (candScore nn c : ℤ) < t := not_le.mp hc
      have hr : t ≤ (maxScore nn rest : ℤ) := by
        by_contra hnr
        push_neg at hnr
        exact absurd h (not_le.mpr (max_lt hcs hnr))
      simp only [maxQual, if_neg hc]
      rw [ih hr]
      have h4 : candScore nn c ≤ maxScore nn rest := by
        exact_mod_cast le_of_lt (lt_of_lt_of_le hcs hr)
      rw [max_eq_right h4]

lemma matchLoop_eq (nn : String) (t : ℤ) :
    ∀ (l : List String) (b : Option String) (s : Nat),
      matchLoop nn t l b s =
        if s < maxQual nn t l then
          l.find? (fun c => candScore nn c == maxQual nn t l)
        else b := by
  intro l
  induction l with
  | nil => intro b s; simp [matchLoop, maxQual]
  | cons c rest ih =>
    intro b s
    by_cases hq : t ≤ (candScore nn c : ℤ)
    · by_cases hs : s < candScore nn c
      · rw [show matchLoop nn t (c :: rest) b s =
            matchLoop nn t rest (some c) (candScore nn c) by
              simp only [matchLoop]
              rw [if_pos (And.intro hs hq)]]
        rw [ih]
        simp only [maxQual, if_pos hq]
        by_cases hm : candScore nn c < maxQual nn t rest
        · rw [if_pos hm]
          rw [max_eq_right (le_of_lt hm), if_pos (lt_of_lt_of_le hs (le_of_lt hm))]
          simp only [List.find?]
          rw [show (candScore nn c == maxQual nn t rest) = false by
            simp [ne_of_lt hm]]
        · rw [if_neg hm]
          rw [max_eq_left (le_of_not_lt hm), if_pos hs]
          simp only [List.find?]
          rw [show (candScore nn c == candScore nn c) = true by simp]
      · rw [show matchLoop nn t (c :: rest) b s = matchLoop nn t rest b s by
          simp [matchLoop, hs]]
        rw [ih]
        simp only [maxQual, if_pos hq]
        have hsc : candScore nn c ≤ s := le_of_not_lt hs
        by_cases hm : s < maxQual nn t rest
        · rw [if_pos hm]
          rw [max_eq_right (le_trans hsc (le_of_lt hm)), if_pos hm]
          simp only [List.find?]
          rw [show (candScore nn c == maxQual nn t rest) = false by
            simp [ne_of_lt (lt_of_le_of_lt hsc hm)]]
        · rw [if_neg hm]
          have hnot : ¬ s < max (candScore nn c) (maxQual nn t rest) :=
            not_lt.mpr (max_le hsc (not_lt.mp hm))
          rw [if_neg hnot]
    · rw [show matchLoop nn t (c :: rest) b s = matchLoop nn t rest b s by
        simp only [matchLoop]
        rw [if_neg (by tauto)]]
      rw [ih]
      simp only [maxQual, if_neg hq]
      by_cases hm : s < maxQual nn t rest
      · rw [if_pos hm, if_pos hm]
        simp only [List.find?]
        have hne : candScore nn c ≠ maxQual nn t rest := by
          intro heq
          have hpos : 0 < maxQual nn t rest := Nat.lt_of_le_of_lt (Nat.zero_le s) hm
          have := maxQual_threshold nn t rest hpos
          rw [← heq] at this
          exact hq this
        rw [show (candScore nn c == maxQual nn t rest) = false by simp [hne]]
      · rw [if_neg hm, if_neg hm]

/-- Characterization of match_player: it returns the first candidate whose
score equals the overall maximum score, provided that maximum is at least 1
and reaches the threshold; otherwise none. -/
lemma match_player_eq (name : String) (cands : List String) (t : ℤ) :
    match_player name cands t =
      if 1 ≤ maxScore (normalize name) cands ∧
          t ≤ (maxScore (normalize name) cands : ℤ) then
        cands.find? (fun c => candScore (normalize name) c == maxScore (normalize name) cands)
      else none := by
  unfold match_player
  rw [matchLoop_eq]
  by_cases ht : t ≤ (maxScore (normalize name) cands : ℤ)
  · rw [maxQual_of_le _ _ _ ht]
    by_cases h1 : 1 ≤ maxScore (normalize name) cands
    · rw [if_pos (Nat.lt_of_lt_of_le Nat.zero_lt_one h1), if_pos (And.intro h1 ht)]
    · rw [if_neg (by omega), if_neg (by tauto)]
  · rw [maxQual_of_lt _ _ _ (not_le.mp ht)]
    rw [if_neg (by omega), if_neg (by tauto)]

lemma foldr_max_le (n : Nat) : ∀ L : List Nat, (∀ x ∈ L, x ≤ n) → L.foldr max 0 ≤ n := by
  intro L
  induction L with
  | nil => intro _; simp
  | cons a l ih =>
    intro h
    simp only [List.foldr]
    have ha := h a (by simp)
    have hl := ih (fun x hx => h x (by simp [hx]))
    omega

lemma ratioM_le_100 (a b : List Char) : ratioM a b ≤ 100 := by
  unfold ratioM
  split
  · exact le_refl _
  · exact Nat.min_le_left _ _

lemma partRatioM_le_100 (a b : List Char) : partRatioM a b ≤ 100 := by
  unfold partRatioM
  split <;>
  · refine foldr_max_le _ _ ?_
    intro x hx
    obtain ⟨w, _, hw⟩ := List.mem_map.mp hx
    rw [← hw]
    exact ratioM_le_100 _ _

lemma candScore_le_100 (nn c : String) : candScore nn c ≤ 100 := by
  unfold candScore
  have h1 := ratioM_le_100 nn.data (normalize c).data
  have h2 := partRatioM_le_100 nn.data (normalize c).data
  have h3 := ratioM_le_100 (joinSpace (sortToks (splitWs nn.data)))
    (joinSpace (sortToks (splitWs (normalize c).data)))
  simp only [tokenSortRatioM]
  omega

lemma implied_prob_pos (o : ℤ) (h : o ≠ 0) : 0 < implied_prob o := by
  unfold implied_prob
  split
  · next ho =>
    have h1 : (0:ℚ) < (o:ℚ) := by exact_mod_cast ho
    exact div_pos (by norm_num) (by linarith)
  · next ho =>
    have hna : 0 < o.natAbs := Int.natAbs_pos.mpr h
    have h1 : (0:ℚ) < (o.natAbs:ℚ) := by exact_mod_cast hna
    exact div_pos h1 (by linarith)

/-- Claim C2: for all nonzero American odds pairs, calculate_no_vig returns
two probabilities, each strictly positive, summing to 100 within 0.01
(on the exact rational model the sum is exactly 100). -/
theorem calculate_no_vig_claim2 (o u : ℤ) (ho : o ≠ 0) (hu : u ≠ 0) :
    (calculate_no_vig o u).isSome = true ∧
    ∀ p q : ℚ, calculate_no_vig o u = some (p, q) →
      0 < p ∧ 0 < q ∧ |p + q - 100| ≤ 1 / 100 := by
  have hop := implied_prob_pos o ho
  have hup := implied_prob_pos u hu
  have ht : 0 < implied_prob o + implied_prob u := by linarith
  have ht0 : implied_prob o + implied_prob u ≠ 0 := ne_of_gt ht
  constructor
  · simp [calculate_no_vig, ht0]
  · intro p q hpq
    simp only [calculate_no_vig] at hpq
    rw [if_neg ht0] at hpq
    rw [Option.some.injEq, Prod.mk.injEq] at hpq
    obtain ⟨hp, hq⟩ := hpq
    subst hp
    subst hq
    refine ⟨?_, ?_, ?_⟩
    · exact mul_pos (div_pos hop ht) (by norm_num)
    · exact mul_pos (div_pos hup ht) (by norm_num)
    · have hsum : implied_prob o / (implied_prob o + implied_prob u) * 100 +
          implied_prob u / (implied_prob o + implied_prob u) * 100 = 100 := by
        field_simp
        ring
      rw [hsum]
      norm_num

/-- Witness for claim C2 at the symmetric pair (-110, -110), where the
no-vig probabilities are 50 and 50. -/
theorem calculate_no_vig_claim2_witness :
    0 < (50:ℚ) ∧ 0 < (50:ℚ) ∧ |(50:ℚ) + 50 - 100| ≤ 1 / 100 :=
  (calculate_no_vig_claim2 (-110) (-110) (by decide) (by decide)).2 50 50 (by decide)

/-- Counterexample to claim C5: calculate_no_vig(-140, +120) returns
(7700/137, 6000/137) ≈ (56.20, 43.80), not ≈ (58.33, 41.67): the spec's
expected numbers are the raw implied probabilities before removing the vig. -/
theorem calculate_no_vig_claim5_counterexample :
    calculate_no_vig (-140) 120 = some (7700/137, 6000/137) ∧
    ¬(|7700/137 - 5833/100| ≤ (1/10 : ℚ)) ∧
    ¬(|6000/137 - 4167/100| ≤ (1/10 : ℚ)) := by decide

/-- Claim C5 amended: calculate_no_vig(-140, +120) returns over ≈ 56.20
and under ≈ 43.80 (exactly 7700/137 and 6000/137), each within 0.1. -/
theorem calculate_no_vig_claim5_amended :
    calculate_no_vig (-140) 120 = some (7700/137, 6000/137) ∧
    |7700/137 - 5620/100| ≤ (1/10 : ℚ) ∧
    |6000/137 - 4380/100| ≤ (1/10 : ℚ) := by decide

/-- Counterexample to claim C7: a zero odds argument is not rejected;
calculate_no_vig(0, -110) silently returns the probabilities (0, 100). -/
theorem calculate_no_vig_claim7_counterexample :
    calculate_no_vig 0 (-110) = some (0, 100) := by decide

/-- Claim C7 amended: calculate_no_vig performs no input validation.
With exactly one argument 0 it silently returns (0, 100) or (100, 0);
only with both arguments 0 does the division fail (Python
ZeroDivisionError, modelled as none), which is an unhandled exception,
not a boundary rejection. -/
theorem calculate_no_vig_claim7_amended (u : ℤ) (hu : u ≠ 0) :
    calculate_no_vig 0 u = some (0, 100) ∧
    calculate_no_vig u 0 = some (100, 0) ∧
    calculate_no_vig 0 0 = none := by
  have hup := implied_prob_pos u hu
  have hne : implied_prob u ≠ 0 := ne_of_gt hup
  have h0 : implied_prob 0 = 0 := by norm_num [implied_prob]
  refine ⟨?_, ?_, ?_⟩
  · simp only [calculate_no_vig, h0, zero_add]
    rw [if_neg hne]
    rw [zero_div, zero_mul, div_self hne, one_mul]
  · simp only [calculate_no_vig, h0, add_zero]
    rw [if_neg hne]
    rw [zero_div, zero_mul, div_self hne, one_mul]
  · simp [calculate_no_vig, h0]

/-- Witness for the amended claim C7 at u = 120. -/
theorem calculate_no_vig_claim7_witness :
    calculate_no_vig 0 120 = some (0, 100) ∧
    calculate_no_vig 120 0 = some (100, 0) ∧
    calculate_no_vig 0 0 = none :=
  calculate_no_vig_claim7_amended 120 (by decide)

lemma mem_slipLoop (w : ℚ) :
    ∀ (l : List (String × ℚ)) (s : String),
      s ∈ slipLoop w l ↔ ∃ th, (s, th) ∈ l ∧ s ≠ "default" ∧ th ≤ w := by
  intro l
  induction l with
  | nil => intro s; simp [slipLoop]
  | cons kv rest ih =>
    intro s
    obtain ⟨st, be⟩ := kv
    simp only [slipLoop]
    split
    · next hcond =>
      simp only [List.mem_cons]
      constructor
      · rintro (rfl | hmem)
        · exact ⟨be, Or.inl rfl, hcond⟩
        · obtain ⟨th, h1, h2, h3⟩ := (ih s).mp hmem
          exact ⟨th, Or.inr h1, h2, h3⟩
      · rintro ⟨th, (heq | hmem), h2, h3⟩
        · left
          exact congrArg Prod.fst heq
        · right
          exact (ih s).mpr ⟨th, hmem, h2, h3⟩
    · next hcond =>
      rw [ih s]
      constructor
      · rintro ⟨th, hmem, h2, h3⟩
        exact ⟨th, List.mem_cons_of_mem _ hmem, h2, h3⟩
      · rintro ⟨th, hmem, h2, h3⟩
        rcases List.mem_cons.mp hmem with heq | hmem2
        · exfalso
          apply hcond
          have hs : s = st := congrArg Prod.fst heq
          have hb : th = be := congrArg Prod.snd heq
          rw [← hs, ← hb]
          exact ⟨h2, h3⟩
        · exact ⟨th, hmem2, h2, h3⟩

lemma evalOddsLoop_eq (p : Prop') (mw me : ℚ) (m : String) :
    ∀ l : List SharpOddsEntry,
      evalOddsLoop p mw me m l =
        match l.find? (fun o => o.player == m && decide (|o.line - p.line| ≤ 1/2)) with
        | none => .ok none
        | some o => processEntry p mw me o := by
  intro l
  induction l with
  | nil => simp [evalOddsLoop, List.find?]
  | cons o rest ih =>
    by_cases h1 : o.player = m
    · by_cases h2 : |o.line - p.line| ≤ 1/2
      · have hpred : (o.player == m && decide (|o.line - p.line| ≤ 1/2)) = true := by
          rw [show (o.player == m) = true from beq_iff_eq.mpr h1, decide_eq_true h2]
          rfl
        simp only [evalOddsLoop, List.find?, hpred]
        rw [if_neg (by simp [h1]), if_neg (not_lt.mpr h2)]
      · have hpred : (o.player == m && decide (|o.line - p.line| ≤ 1/2)) = false := by
          rw [decide_eq_false h2, Bool.and_false]
        simp only [evalOddsLoop, List.find?, hpred]
        rw [if_neg (by simp [h1]), if_pos (not_le.mp h2)]
        exact ih
    · have hpred : (o.player == m && decide (|o.line - p.line| ≤ 1/2)) = false := by
        rw [show (o.player == m) = false from beq_eq_false_iff_ne.mpr h1, Bool.false_and]
      simp only [evalOddsLoop, List.find?, hpred]
      rw [if_pos h1]
      exact ih

/-- Claim C1: with the stat mapped to a market, the fuzzy match resolved to
m, and o the FIRST entry in sharp-priority order whose player equals m and
whose line is within 0.5 of the prop's line, the per-prop EV evaluation
removes the vig from o, recommends the higher-probability side, sets the
EV percentage to win probability minus the platform's default break-even,
emits a play if and only if win probability ≥ min_win and EV ≥ min_ev, and
fills best_for with exactly the non-default slip types of the platform's
break-even table whose threshold is at most the win probability. -/
theorem evaluateProp_claim1
    (p : Prop') (all_odds : List SharpOddsEntry) (min_win min_ev : ℚ)
    (market m : String) (o : SharpOddsEntry) (op up be : ℚ) (tbl : List (String × ℚ))
    (hmk : alist_get p.stat_type PROP_MAPPINGS = some market)
    (hmatch : match_player p.player_name
      ((relevantOdds all_odds market).map (fun e => e.player)) 80 = some m)
    (hfind : (relevantOdds all_odds market).find?
      (fun e => e.player == m && decide (|e.line - p.line| ≤ 1/2)) = some o)
    (hnv : calculate_no_vig o.over_odds o.under_odds = some (op, up))
    (htbl : alist_get p.platform BREAKEVEN = some tbl)
    (hbe : alist_get "default" tbl = some be) :
    evaluateProp p all_odds min_win min_ev = .ok (
      if min_win ≤ (if op > up then op else up) ∧
          min_ev ≤ (if op > up then op else up) - be then
        some { prop := p,
               sharp_odds :=
                 { bookmaker := o.bookmaker, line := o.line,
                   over_odds := o.over_odds, under_odds := o.under_odds,
                   over_probability := round2 op, under_probability := round2 up,
                   is_sharp := o.is_sharp },
               recommended_play := if op > up then "OVER" else "UNDER",
               win_probability := round2 (if op > up then op else up),
               ev_percentage := round2 ((if op > up then op else up) - be),
               best_for := get_best_slip_types (if op > up then op else up) p.platform }
      else none) ∧
    (∀ s, s ∈ get_best_slip_types (if op > up then op else up) p.platform ↔
      ∃ th, (s, th) ∈ tbl ∧ s ≠ "default" ∧ th ≤ (if op > up then op else up)) := by
  constructor
  · simp only [evaluateProp, hmk, hmatch]
    rw [evalOddsLoop_eq, hfind]
    simp only [processEntry, hnv, htbl, Option.getD_some, hbe]
    rw [apply_ite (Except.ok : Option EVPlay → Except String (Option EVPlay))]
  · intro s
    simp only [get_best_slip_types, htbl, Option.getD_some]
    exact mem_slipLoop _ tbl s

/-- Witness for claim C1 at a concrete prop and a one-entry odds list with
odds (-110, -110), instantiating the best_for characterization at 5_flex. -/
theorem evaluateProp_claim1_witness :
    "5_flex" ∈ get_best_slip_types 50 "prizepicks" ↔
      ∃ th, ("5_flex", th) ∈ ppBreakevens ∧ "5_flex" ≠ "default" ∧ th ≤ (50:ℚ) :=
  (evaluateProp_claim1 c1prop c1odds 50 (-5) "player_points" "lebron james"
    { player := "lebron james", line := 25, over_odds := -110, under_odds := -110,
      bookmaker := "draftkings", market := "player_points", is_sharp := true }
    50 50 (5434/100) ppBreakevens
    (by decide) (by decide) (by decide) (by decide) (by decide) (by decide)).2 "5_flex"

/-- Claim C9: a prop whose platform has no BREAKEVEN entry does not make
the evaluation fail: get_best_slip_types falls back to the PrizePicks
table, and the EV computation falls back to the default break-even 54.34,
the evaluation returning an ordinary Except.ok value. -/
theorem evaluateProp_claim9
    (p : Prop') (all_odds : List SharpOddsEntry) (min_win min_ev : ℚ)
    (market m : String) (o : SharpOddsEntry) (op up : ℚ)
    (hnone : alist_get p.platform BREAKEVEN = none)
    (hmk : alist_get p.stat_type PROP_MAPPINGS = some market)
    (hmatch : match_player p.player_name
      ((relevantOdds all_odds market).map (fun e => e.player)) 80 = some m)
    (hfind : (relevantOdds all_odds market).find?
      (fun e => e.player == m && decide (|e.line - p.line| ≤ 1/2)) = some o)
    (hnv : calculate_no_vig o.over_odds o.under_odds = some (op, up)) :
    (∀ w : ℚ, get_best_slip_types w p.platform = get_best_slip_types w "prizepicks") ∧
    evaluateProp p all_odds min_win min_ev = .ok (
      if min_win ≤ (if op > up then op else up) ∧
          min_ev ≤ (if op > up then op else up) - 5434/100 then
        some { prop := p,
               sharp_odds :=
                 { bookmaker := o.bookmaker, line := o.line,
                   over_odds := o.over_odds, under_odds := o.under_odds,
                   over_probability := round2 op, under_probability := round2 up,
                   is_sharp := o.is_sharp },
               recommended_play := if op > up then "OVER" else "UNDER",
               win_probability := round2 (if op > up then op else up),
               ev_percentage := round2 ((if op > up then op else up) - 5434/100),
               best_for := get_best_slip_types (if op > up then op else up) p.platform }
      else none) := by
  constructor
  · intro w
    have hpp : alist_get "prizepicks" BREAKEVEN = some ppBreakevens := by decide
    simp only [get_best_slip_types, hnone, hpp, Option.getD_none, Option.getD_some]
  · simp only [evaluateProp, hmk, hmatch]
    rw [evalOddsLoop_eq, hfind]
    have hdef : alist_get "default" ([] : List (String × ℚ)) = none := rfl
    simp only [processEntry, hnv, hnone, Option.getD_none, hdef]
    rw [apply_ite (Except.ok : Option EVPlay → Except String (Option EVPlay))]

/-- Witness for claim C9 at a concrete prop on the unknown platform
"parlayplay". -/
theorem evaluateProp_claim9_witness :
    get_best_slip_types 55 "parlayplay" = get_best_slip_types 55 "prizepicks" :=
  (evaluateProp_claim9 c9prop c9odds 0 (-100) "player_rebounds" "nikola jokic"
    { player := "nikola jokic", line := 12, over_odds := -110, under_odds := -110,
      bookmaker := "fanduel", market := "player_rebounds", is_sharp := false }
    50 50
    (by decide) (by decide) (by decide) (by decide) (by decide)).1 55

lemma mem_insertDesc (m x : MiddleOpportunity) :
    ∀ l, x ∈ insertDesc m l ↔ x = m ∨ x ∈ l := by
  intro l
  induction l with
  | nil => simp [insertDesc]
  | cons y ys ih =>
    simp only [insertDesc]
    split
    · simp [List.mem_cons]
    · simp only [List.mem_cons, ih]
      tauto

lemma mem_sortBySpread (x : MiddleOpportunity) :
    ∀ l, x ∈ sortBySpread l ↔ x ∈ l := by
  intro l
  induction l with
  | nil => simp [sortBySpread]
  | cons m rest ih => simp [sortBySpread, mem_insertDesc, ih]

lemma pairwise_insertDesc (m : MiddleOpportunity) :
    ∀ l, l.Pairwise (fun a b => b.spread ≤ a.spread) →
      (insertDesc m l).Pairwise (fun a b => b.spread ≤ a.spread) := by
  intro l
  induction l with
  | nil => intro _; simp [insertDesc]
  | cons y ys ih =>
    intro h
    rw [List.pairwise_cons] at h
    obtain ⟨hy, hys⟩ := h
    simp only [insertDesc]
    split
    · next hle =>
      rw [List.pairwise_cons]
      refine ⟨?_, ?_⟩
      · intro x hx
        rcases List.mem_cons.mp hx with rfl | hx2
        · exact hle
        · exact le_trans (hy x hx2) hle
      · rw [List.pairwise_cons]
        exact ⟨hy, hys⟩
    · next hgt =>
      rw [List.pairwise_cons]
      refine ⟨?_, ?_⟩
      · intro x hx
        rcases (mem_insertDesc m x ys).mp hx with rfl | hx2
        · exact le_of_lt (not_le.mp hgt)
        · exact hy x hx2
      · exact ih hys

lemma pairwise_sortBySpread :
    ∀ l, (sortBySpread l).Pairwise (fun a b => b.spread ≤ a.spread) := by
  intro l
  induction l with
  | nil => simp [sortBySpread]
  | cons m rest ih => exact pairwise_insertDesc m _ ih

lemma mem_middlesLoop (sport : String) (ud : List ((String × String × String) × Prop'))
    (msp : ℚ) (x : MiddleOpportunity) :
    ∀ l, x ∈ middlesLoop sport ud msp l ↔
      ∃ k pp u, (k, pp) ∈ l ∧ alist_get k ud = some u ∧
        msp ≤ |pp.line - u.line| ∧ x = mkMiddle sport pp u := by
  intro l
  induction l with
  | nil => simp [middlesLoop]
  | cons kv rest ih =>
    obtain ⟨k₀, pp₀⟩ := kv
    cases hud : alist_get k₀ ud with
    | none =>
      simp only [middlesLoop, hud]
      rw [ih]
      constructor
      · rintro ⟨k, pp, u, h1, h2, h3, h4⟩
        exact ⟨k, pp, u, List.mem_cons_of_mem _ h1, h2, h3, h4⟩
      · rintro ⟨k, pp, u, h1, h2, h3, h4⟩
        rcases List.mem_cons.mp h1 with heq | h1a
        · exfalso
          have hk : k = k₀ := congrArg Prod.fst heq
          rw [hk, hud] at h2
          exact Option.noConfusion h2
        · exact ⟨k, pp, u, h1a, h2, h3, h4⟩
    | some u₀ =>
      simp only [middlesLoop, hud]
      split
      · next hsp =>
        simp only [List.mem_cons]
        constructor
        · rintro (rfl | hmem)
          · exact ⟨k₀, pp₀, u₀, Or.inl rfl, hud, hsp, rfl⟩
          · obtain ⟨k, pp, u, h1, h2, h3, h4⟩ := ih.mp hmem
            exact ⟨k, pp, u, Or.inr h1, h2, h3, h4⟩
        · rintro ⟨k, pp, u, (heq | h1), h2, h3, h4⟩
          · left
            have hk : k = k₀ := congrArg Prod.fst heq
            have hp : pp = pp₀ := congrArg Prod.snd heq
            rw [hk, hud] at h2
            have hu : u = u₀ := (Option.some.inj h2).symm
            rw [h4, hp, hu]
          · right
            exact ih.mpr ⟨k, pp, u, h1, h2, h3, h4⟩
      · next hsp =>
        rw [ih]
        constructor
        · rintro ⟨k, pp, u, h1, h2, h3, h4⟩
          exact ⟨k, pp, u, List.mem_cons_of_mem _ h1, h2, h3, h4⟩
        · rintro ⟨k, pp, u, h1, h2, h3, h4⟩
          rcases List.mem_cons.mp h1 with heq | h1a
          · exfalso
            have hk : k = k₀ := congrArg Prod.fst heq
            have hp : pp = pp₀ := congrArg Prod.snd heq
            rw [hk, hud] at h2
            have hu : u₀ = u := Option.some.inj h2
            apply hsp
            rw [hp] at h3
            rw [← hu] at h3
            exact h3
          · exact ⟨k, pp, u, h1a, h2, h3, h4⟩

lemma mem_dictInsert (k : String × String × String) (v : Prop')
    (x : (String × String × String) × Prop') :
    ∀ l, x ∈ dictInsert k v l → x.2 = v ∨ x ∈ l := by
  intro l
  induction l with
  | nil =>
    intro h
    simp only [dictInsert, List.mem_singleton] at h
    left
    rw [h]
  | cons kv rest ih =>
    obtain ⟨k₁, v₁⟩ := kv
    simp only [dictInsert]
    split
    · intro h
      rcases List.mem_cons.mp h with rfl | h2
      · left
        rfl
      · right
        exact List.mem_cons_of_mem _ h2
    · intro h
      rcases List.mem_cons.mp h with rfl | h2
      · right
        exact List.mem_cons_self _ _
      · rcases ih h2 with h3 | h3
        · left
          exact h3
        · right
          exact List.mem_cons_of_mem _ h3

lemma buildDict_val_mem :
    ∀ (props : List Prop') (d : List ((String × String × String) × Prop'))
      (x : (String × String × String) × Prop'),
      x ∈ props.foldl (fun d p => dictInsert (propKey p) p d) d → x ∈ d ∨ x.2 ∈ props := by
  intro props
  induction props with
  | nil =>
    intro d x h
    exact Or.inl h
  | cons p rest ih =>
    intro d x h
    simp only [List.foldl_cons] at h
    rcases ih _ x h with h2 | h2
    · rcases mem_dictInsert _ _ x d h2 with h3 | h3
      · right
        rw [h3]
        exact List.mem_cons_self _ _
      · left
        exact h3
    · right
      exact List.mem_cons_of_mem _ h2

lemma alist_get_mem {α β : Type} [DecidableEq α] (k : α) (v : β) :
    ∀ l : List (α × β), alist_get k l = some v → (k, v) ∈ l := by
  intro l
  induction l with
  | nil =>
    intro h
    exact Option.noConfusion h
  | cons kv rest ih =>
    obtain ⟨k₁, v₁⟩ := kv
    simp only [alist_get]
    split
    · next heq =>
      intro h
      have hv : v₁ = v := Option.some.inj h
      rw [heq, hv]
      exact List.mem_cons_self _ _
    · intro h
      exact List.mem_cons_of_mem _ (ih h)

lemma middleZone_bounds (low high z : ℚ) (h0 : 0 ≤ low) (hlh : low ≤ high)
    (hsp : 1/2 ≤ high - low) (hz : z ∈ middleZone low high) :
    low < z ∧ z ≤ high := by
  have h0h : (0:ℚ) ≤ high := le_trans h0 hlh
  have htl : pytrunc low = ⌊low⌋ := by simp [pytrunc, not_lt.mpr h0]
  have hth : pytrunc high = ⌊high⌋ := by simp [pytrunc, not_lt.mpr h0h]
  unfold middleZone at hz
  by_cases hemp : intRangeQ (pytrunc low + 1) (pytrunc high + 1) = []
  · rw [if_pos hemp] at hz
    rw [List.mem_singleton] at hz
    subst hz
    constructor
    · linarith
    · linarith
  · rw [if_neg hemp] at hz
    unfold intRangeQ at hz
    obtain ⟨i, hi, hzi⟩ := List.mem_map.mp hz
    rw [List.mem_range] at hi
    rw [htl, hth] at hi
    rw [htl] at hzi
    have hi2 : (i : ℤ) < ⌊high⌋ + 1 - (⌊low⌋ + 1) := Int.lt_toNat.mp hi
    rw [← hzi]
    constructor
    · have h1 : low < (⌊low⌋ : ℚ) + 1 := Int.lt_floor_add_one low
      push_cast
      have h2 : (0:ℚ) ≤ (i : ℚ) := by positivity
      linarith
    · have h3 : (⌊low⌋ + 1 + i : ℤ) ≤ ⌊high⌋ := by omega
      have h4 : ((⌊high⌋ : ℤ) : ℚ) ≤ high := Int.floor_le high
      have h5 : ((⌊low⌋ + 1 + i : ℤ) : ℚ) ≤ ((⌊high⌋ : ℤ) : ℚ) := by exact_mod_cast h3
      push_cast at h5 ⊢
      linarith

/-- Counterexample to claim C3: with negative lines -5.5 and -7.5, the
code's int() truncation gives middle zone [-6, -5], while the claimed
floor formula floor(-7.5)+1 .. floor(-5.5) would give [-7, -6]. -/
theorem get_middles_claim3_counterexample :
    (get_middles [c3negpp] [c3negud] (1/2) "nba").map (fun x => x.middle_zone) =
      [[(-6 : ℚ), -5]] ∧
    (⌊(-15/2 : ℚ)⌋ + 1 : ℤ) = -7 ∧ (⌊(-11/2 : ℚ)⌋ : ℤ) = -6 ∧
    ([(-6 : ℚ), -5] ≠ [(-7 : ℚ), -6]) := by decide

/-- Claim C3 amended: the middle detection emits an opportunity exactly for
the shared (player, stat, sport) keys whose line spread is at least
min_spread, recommending UNDER on the higher line and OVER on the lower,
the middle zone being the integers from trunc(low)+1 through trunc(high)
(truncation toward zero, which agrees with floor for the nonnegative lines
of real props) or the single value low+0.5 when that range is empty, with
output sorted by spread descending; lines 7.5 and 5.5 at min_spread 0.5
yield spread 2.0 and middle zone [6, 7]. -/
theorem get_middles_claim3_amended :
    (∀ (pp ud : List Prop') (msp : ℚ) (sport : String) (x : MiddleOpportunity),
      x ∈ get_middles pp ud msp sport ↔
        ∃ k p u, (k, p) ∈ buildDict pp ∧ alist_get k (buildDict ud) = some u ∧
          msp ≤ |p.line - u.line| ∧ x = mkMiddle sport p u) ∧
    (∀ (pp ud : List Prop') (msp : ℚ) (sport : String),
      (get_middles pp ud msp sport).Pairwise (fun a b => b.spread ≤ a.spread)) ∧
    get_middles [c3pp] [c3ud] (1/2) "nba" =
      [{ player_name := "LeBron James", stat_type := "Points", sport := "NBA",
         platform_a := { name := "prizepicks", line := 15/2, recommended := "UNDER" },
         platform_b := { name := "underdog", line := 11/2, recommended := "OVER" },
         spread := 2, middle_zone := [6, 7] }] := by
  refine ⟨?_, ?_, ?_⟩
  · intro pp ud msp sport x
    rw [get_middles, mem_sortBySpread, mem_middlesLoop]
  · intro pp ud msp sport
    rw [get_middles]
    exact pairwise_sortBySpread _
  · decide

/-- Witness for the amended claim C3: the concrete 7.5 / 5.5 example. -/
theorem get_middles_claim3_witness :
    get_middles [c3pp] [c3ud] (1/2) "nba" =
      [{ player_name := "LeBron James", stat_type := "Points", sport := "NBA",
         platform_a := { name := "prizepicks", line := 15/2, recommended := "UNDER" },
         platform_b := { name := "underdog", line := 11/2, recommended := "OVER" },
         spread := 2, middle_zone := [6, 7] }] :=
  get_middles_claim3_amended.2.2

/-- Counterexample to claim C8: with lines 7.0 and 5.5 the middle zone is
[6, 7] and its value 7 equals the higher line 7.0, so it is not strictly
less than the higher line (an outcome of exactly 7 does not win UNDER 7). -/
theorem middles_claim8_counterexample :
    (get_middles [c8pp] [c8ud] (1/2) "nba").map
      (fun x => (x.platform_a.line, x.platform_b.line, x.middle_zone)) =
      [((7 : ℚ), (11/2 : ℚ), [(6 : ℚ), 7])] ∧
    (7 : ℚ) ∈ [(6 : ℚ), 7] ∧ ¬((7 : ℚ) < 7) := by decide

/-- Claim C8 amended: for nonnegative prop lines and min_spread at least
0.5, every middle-zone value is strictly greater than the lower platform
line and at most (not in general strictly below) the higher platform line. -/
theorem middles_claim8_amended
    (pp ud : List Prop') (msp : ℚ) (sport : String) (x : MiddleOpportunity) (z : ℚ)
    (hmsp : 1/2 ≤ msp)
    (hpp : ∀ q ∈ pp, 0 ≤ q.line) (hud : ∀ q ∈ ud, 0 ≤ q.line)
    (hx : x ∈ get_middles pp ud msp sport) (hz : z ∈ x.middle_zone) :
    x.platform_b.line < z ∧ z ≤ x.platform_a.line := by
  rw [get_middles, mem_sortBySpread, mem_middlesLoop] at hx
  obtain ⟨k, p, u, hk, hu, hsp, rfl⟩ := hx
  have hpmem : p ∈ pp := by
    rcases buildDict_val_mem pp [] (k, p) hk with h | h
    · exact absurd h (List.not_mem_nil _)
    · exact h
  have humem : u ∈ ud := by
    rcases buildDict_val_mem ud [] (k, u) (alist_get_mem k u _ hu) with h | h
    · exact absurd h (List.not_mem_nil _)
    · exact h
  have hp0 := hpp p hpmem
  have hu0 := hud u humem
  unfold mkMiddle at hz ⊢
  by_cases hcmp : p.line > u.line
  · rw [if_pos hcmp] at hz ⊢
    simp only at hz ⊢
    have habs : |p.line - u.line| = p.line - u.line := abs_of_pos (by linarith)
    rw [habs] at hsp
    exact middleZone_bounds u.line p.line z hu0 (le_of_lt hcmp) (by linarith) hz
  · rw [if_neg hcmp] at hz ⊢
    simp only at hz ⊢
    have hle : p.line ≤ u.line := not_lt.mp hcmp
    have habs : |p.line - u.line| = u.line - p.line := by
      rw [abs_of_nonpos (by linarith)]
      ring
    rw [habs] at hsp
    exact middleZone_bounds p.line u.line z hp0 hle (by linarith) hz

/-- Witness for the amended claim C8 at the 7.5 / 5.5 example with z = 6. -/
theorem middles_claim8_witness :
    (mkMiddle "nba" c8wpp c8wud).platform_b.line < (6:ℚ) ∧
      (6:ℚ) ≤ (mkMiddle "nba" c8wpp c8wud).platform_a.line :=
  middles_claim8_amended [c8wpp] [c8wud] (1/2) "nba" (mkMiddle "nba" c8wpp c8wud) 6
    (by norm_num) (by decide) (by decide) (by decide) (by decide)

/-- Counterexample to claim C4: with threshold 0 and a candidate scoring 0,
the maximum score 0 reaches the threshold, yet match_player returns none
(the running best score starts at 0 and a candidate must strictly exceed
it), where the claim as stated requires the candidate to be returned. -/
theorem match_player_claim4_counterexample :
    match_player "a" ["b"] 0 = none ∧ maxScore (normalize "a") ["b"] = 0 := by decide

/-- Claim C4 amended: each candidate is scored by the maximum of the three
similarity scores (each between 0 and 100) on normalized strings, and
match_player returns the first candidate, in input order, whose score
equals the maximum score, provided that maximum reaches the threshold AND
is at least 1; it returns none when the candidate list is empty, when no
score reaches the threshold, or when the maximum score is 0 (a score of 0
never wins, even against a threshold at most 0). -/
theorem match_player_claim4_amended :
    (∀ (name : String) (cands : List String) (t : ℤ),
      match_player name cands t =
        if 1 ≤ maxScore (normalize name) cands ∧
            t ≤ (maxScore (normalize name) cands : ℤ) then
          cands.find? (fun c => candScore (normalize name) c == maxScore (normalize name) cands)
        else none) ∧
    (∀ nn c : String, candScore nn c ≤ 100) :=
  ⟨match_player_eq, candScore_le_100⟩

/-- Claim C6: the normalizer returns the empty string on empty input,
lower-cases and trims, removes the generational suffixes anywhere in the
string (not only as a trailing token), never fails on any input (it is a
total function, and prepending whitespace does not change the result), and
matching "LeBron James Jr." against ["lebron james"] at threshold 80
returns "lebron james". -/
theorem normalize_claim6 :
    normalize "" = "" ∧
    normalize "  LeBron James Jr.  " = "lebron james" ∧
    normalize "John Doe Jr. Smith" = "john doe smith" ∧
    normalize "Ken Griffey IV" = "ken griffey" ∧
    (∀ s : String, normalize (" " ++ s) = normalize s) ∧
    match_player "LeBron James Jr." ["lebron james"] 80 = some "lebron james" := by
  refine ⟨by decide, by decide, by decide, by decide, ?_, by decide⟩
  intro s
  have hdata : (" " ++ s).data = ' ' :: s.data := rfl
  show normalize (" " ++ s) = normalize s
  unfold normalize normalizeData
  rw [hdata]
  suffices htrim : trimChars ((' ' :: s.data).map Char.toLower) =
      trimChars (s.data.map Char.toLower) by rw [htrim]
  unfold trimChars
  rw [List.map_cons]
  have h1 : Char.toLower ' ' = ' ' := by decide
  rw [h1]
  have h2 : List.dropWhile Char.isWhitespace (' ' :: s.data.map Char.toLower) =
      List.dropWhile Char.isWhitespace (s.data.map Char.toLower) := by
    simp [List.dropWhile]
  rw [h2]

/-- Claim C10: whenever match_player returns a value, that value is an
element of the candidate list, returned verbatim; consequently, in the EV
evaluation, the matched name always equals the player field of at least
one entry of the sharp-sorted relevant odds list. -/
theorem match_player_claim10 :
    (∀ (name : String) (cands : List String) (t : ℤ) (c : String),
        match_player name cands t = some c → c ∈ cands) ∧
    (∀ (all_odds : List SharpOddsEntry) (market pname m : String),
        match_player pname ((relevantOdds all_odds market).map (fun e => e.player)) 80 =
          some m →
        ∃ e, e ∈ relevantOdds all_odds market ∧ e.player = m) := by
  have hmem : ∀ (name : String) (cands : List String) (t : ℤ) (c : String),
      match_player name cands t = some c → c ∈ cands := by
    intro name cands t c h
    rw [match_player_eq] at h
    split at h
    · exact List.mem_of_find?_eq_some h
    · exact Option.noConfusion h
  refine ⟨hmem, ?_⟩
  intro all_odds market pname m h
  obtain ⟨e, he, hp⟩ := List.mem_map.mp (hmem _ _ _ _ h)
  exact ⟨e, he, hp⟩

/-- Witness for claim C10: the matched candidate is in the input list. -/
theorem match_player_claim10_witness : ("lebron james" : String) ∈ ["lebron james"] :=
  match_player_claim10.1 "LeBron James Jr." ["lebron james"] 80 "lebron james" (by decide)

end EVBot
